import Mathlib

/-!
Verification of the gitoid identifier core of omnibor/omnibor-rs.

The repository ships the core's C test-suite (`gitoid/test/c/test.c`) and an
FFI test driver (`gitoid/src/ffi/test.c`); the core library itself (registries,
predigest builder, digest engine, URL codec, error reporter) is modelled here
from the design specification, faithfully to its words, and checked against
the vectors asserted by the C tests.

Bytes are `Nat` values below 256; 32-bit machine words are `Nat` values with
explicit reduction modulo `2^32`.
-/

namespace OmniBor

/-- Modelled from the spec: §3 HashAlgorithm — enumerated value, one of a
fixed extensible set (`sha1`, `sha256`). -/
inductive HashAlgorithm where
  | sha1
  | sha256
deriving DecidableEq, Repr

/-- Modelled from the spec: §3 ObjectType — enumerated value (`blob`,
extensible). -/
inductive ObjectType where
  | blob
deriving DecidableEq, Repr

/-- Modelled from the spec: §4.1 AlgorithmRegistry `canonical_name`. -/
def HashAlgorithm.canonicalName : HashAlgorithm → String
  | .sha1 => "sha1"
  | .sha256 => "sha256"

/-- Modelled from the spec: §4.1 AlgorithmRegistry `digest_length`
(20 bytes for sha1, 32 bytes for sha256). -/
def HashAlgorithm.digestLength : HashAlgorithm → Nat
  | .sha1 => 20
  | .sha256 => 32

/-- Modelled from the spec: §4.2 ObjectTypeRegistry `canonical_name`. -/
def ObjectType.canonicalName : ObjectType → String
  | .blob => "blob"

/-- Modelled from the spec: §4.1 `resolve_by_name` — case-sensitive match on
the canonical lowercase name; unknown names fail rather than defaulting. -/
def resolveAlgorithm (name : List Char) : Option HashAlgorithm :=
  if name = "sha1".data then some .sha1
  else if name = "sha256".data then some .sha256
  else none

/-- Modelled from the spec: §4.2 `resolve_by_name` for object types. -/
def resolveObjectType (name : List Char) : Option ObjectType :=
  if name = "blob".data then some .blob
  else none

/-- UTF-8 encoding of one character (the exact byte encoding of text content,
no normalization, per spec §4.5). -/
def charUtf8 (c : Char) : List Nat :=
  let n := c.toNat
  if n < 128 then [n]
  else if n < 2048 then [192 + n / 64, 128 + n % 64]
  else if n < 65536 then [224 + n / 4096, 128 + n / 64 % 64, 128 + n % 64]
  else [240 + n / 262144, 128 + n / 4096 % 64, 128 + n / 64 % 64, 128 + n % 64]

/-- The raw content bytes of a string: its exact UTF-8 byte encoding. -/
def strBytes (s : String) : List Nat :=
  (s.data.map charUtf8).flatten

/-- Decimal digits of `n`, most significant first, by fuel-guarded division;
`[]` when the fuel runs out or `n = 0`. -/
def decimalDigitsAux : Nat → Nat → List Nat
  | 0, _ => []
  | fuel + 1, n => if n = 0 then [] else decimalDigitsAux fuel (n / 10) ++ [n % 10]

/-- Modelled from the spec: §4.3 — the decimal ASCII representation of a
length, no leading zeros, no sign (`0` is written as the single digit `0`). -/
def decimalBytes (n : Nat) : List Nat :=
  if n = 0 then [48] else (decimalDigitsAux n n).map (· + 48)

/-- Modelled from the spec: §4.3 PredigestBuilder `build` — exactly the ASCII
bytes of the object type's canonical name, a single space (0x20), the decimal
ASCII representation of the content length, and a single NUL byte (0x00). -/
def predigest (t : ObjectType) (contentLength : Nat) : List Nat :=
  strBytes t.canonicalName ++ [32] ++ decimalBytes contentLength ++ [0]

/-! The SHA-1 and SHA-256 digest engine.

Modelled from the spec: §4.4 DigestEngine — the algorithm's cryptographic hash
(FIPS 180 SHA-1 / SHA-256) over the exact concatenation `header ++ content`.
Words are `Nat` reduced modulo `2^32` at every arithmetic step. -/

def w32 : Nat := 4294967296

/-- Left-rotate a 32-bit word by `k` places. -/
def rotl32 (k n : Nat) : Nat := ((n <<< k) ||| (n >>> (32 - k))) % w32

/-- Right-rotate a 32-bit word by `k` places. -/
def rotr32 (k n : Nat) : Nat := ((n >>> k) ||| (n <<< (32 - k))) % w32

/-- Big-endian 4-byte groups to 32-bit words. -/
def bytesToWordsBE : List Nat → List Nat
  | b0 :: b1 :: b2 :: b3 :: rest =>
    (b0 * 16777216 + b1 * 65536 + b2 * 256 + b3) :: bytesToWordsBE rest
  | _ => []

/-- A 32-bit word as 4 big-endian bytes. -/
def wordToBytesBE (w : Nat) : List Nat :=
  [w / 16777216 % 256, w / 65536 % 256, w / 256 % 256, w % 256]

/-- The bit length of the message as 8 big-endian bytes. -/
def lenBytesBE (n : Nat) : List Nat :=
  [n / 2 ^ 56 % 256, n / 2 ^ 48 % 256, n / 2 ^ 40 % 256, n / 2 ^ 32 % 256,
   n / 2 ^ 24 % 256, n / 2 ^ 16 % 256, n / 2 ^ 8 % 256, n % 256]

/-- Merkle–Damgård padding shared by SHA-1 and SHA-256: append 0x80, zero
bytes to 56 mod 64, then the 64-bit big-endian bit length. -/
def padMessage (msg : List Nat) : List Nat :=
  msg ++ [128] ++ List.replicate ((119 - msg.length % 64) % 64) 0
      ++ lenBytesBE (8 * msg.length)

structure Sha1State where
  a : Nat
  b : Nat
  c : Nat
  d : Nat
  e : Nat
deriving DecidableEq, Repr

def sha1IV : Sha1State :=
  ⟨1732584193, 4023233417, 2562383102, 271733878, 3285377520⟩

def sha1K (t : Nat) : Nat :=
  if t < 20 then 1518500249
  else if t < 40 then 1859775393
  else if t < 60 then 2400959708
  else 3395469782

def sha1F (t b c d : Nat) : Nat :=
  if t < 20 then (b &&& c) ||| ((b ^^^ 4294967295) &&& d)
  else if t < 40 then b ^^^ c ^^^ d
  else if t < 60 then (b &&& c) ||| (b &&& d) ||| (c &&& d)
  else b ^^^ c ^^^ d

/-- Expand the 16 block words to the 80-word SHA-1 message schedule. -/
def sha1Schedule (ws : List Nat) : List Nat :=
  (List.range 64).foldl
    (fun w _ =>
      let n := w.length
      w ++ [rotl32 1 (w.getD (n - 3) 0 ^^^ w.getD (n - 8) 0
        ^^^ w.getD (n - 14) 0 ^^^ w.getD (n - 16) 0)])
    ws

/-- SHA-1 compression of one 64-byte block. -/
def sha1Block (s : Sha1State) (block : List Nat) : Sha1State :=
  let w := sha1Schedule (bytesToWordsBE block)
  let fin := (List.range 80).foldl
    (fun (st : Nat × Nat × Nat × Nat × Nat) t =>
      let (a, b, c, d, e) := st
      let temp := (rotl32 5 a + sha1F t b c d + e + sha1K t + w.getD t 0) % w32
      (temp, a, rotl32 30 b, c, d))
    (s.a, s.b, s.c, s.d, s.e)
  ⟨(s.a + fin.1) % w32, (s.b + fin.2.1) % w32, (s.c + fin.2.2.1) % w32,
   (s.d + fin.2.2.2.1) % w32, (s.e + fin.2.2.2.2) % w32⟩

/-- Fold the compression function over successive 64-byte blocks,
fuel-guarded so that evaluation is by structural recursion. -/
def sha1Blocks : Nat → Sha1State → List Nat → Sha1State
  | 0, s, _ => s
  | fuel + 1, s, l => if l = [] then s else sha1Blocks fuel (sha1Block s (l.take 64)) (l.drop 64)

/-- SHA-1 digest of a byte sequence: 20 bytes. -/
def sha1 (msg : List Nat) : List Nat :=
  let p := padMessage msg
  let fin := sha1Blocks p.length sha1IV p
  wordToBytesBE fin.a ++ wordToBytesBE fin.b ++ wordToBytesBE fin.c
    ++ wordToBytesBE fin.d ++ wordToBytesBE fin.e

structure Sha256State where
  a : Nat
  b : Nat
  c : Nat
  d : Nat
  e : Nat
  f : Nat
  g : Nat
  h : Nat
deriving DecidableEq, Repr

def sha256IV : Sha256State :=
  ⟨1779033703, 3144134277, 1013904242, 2773480762,
   1359893119, 2600822924, 528734635, 1541459225⟩

def sha256K : List Nat :=
  [1116352408, 1899447441, 3049323471, 3921009573, 961987163, 1508970993,
   2453635748, 2870763221, 3624381080, 310598401, 607225278, 1426881987,
   1925078388, 2162078206, 2614888103, 3248222580, 3835390401, 4022224774,
   264347078, 604807628, 770255983, 1249150122, 1555081692, 1996064986,
   2554220882, 2821834349, 2952996808, 3210313671, 3336571891, 3584528711,
   113926993, 338241895, 666307205, 773529912, 1294757372, 1396182291,
   1695183700, 1986661051, 2177026350, 2456956037, 2730485921, 2820302411,
   3259730800, 3345764771, 3516065817, 3600352804, 4094571909, 275423344,
   430227734, 506948616, 659060556, 883997877, 958139571, 1322822218,
   1537002063, 1747873779, 1955562222, 2024104815, 2227730452, 2361852424,
   2428436474, 2756734187, 3204031479, 3329325298]

/-- Expand the 16 block words to the 64-word SHA-256 message schedule. -/
def sha256Schedule (ws : List Nat) : List Nat :=
  (List.range 48).foldl
    (fun w _ =>
      let n := w.length
      let s0 := rotr32 7 (w.getD (n - 15) 0) ^^^ rotr32 18 (w.getD (n - 15) 0)
        ^^^ (w.getD (n - 15) 0 >>> 3)
      let s1 := rotr32 17 (w.getD (n - 2) 0) ^^^ rotr32 19 (w.getD (n - 2) 0)
        ^^^ (w.getD (n - 2) 0 >>> 10)
      w ++ [(w.getD (n - 16) 0 + s0 + w.getD (n - 7) 0 + s1) % w32])
    ws

/-- SHA-256 compression of one 64-byte block. -/
def sha256Block (s : Sha256State) (block : List Nat) : Sha256State :=
  let w := sha256Schedule (bytesToWordsBE block)
  let fin := (List.range 64).foldl
    (fun (st : Sha256State) t =>
      let S1 := rotr32 6 st.e ^^^ rotr32 11 st.e ^^^ rotr32 25 st.e
      let ch := (st.e &&& st.f) ^^^ ((st.e ^^^ 4294967295) &&& st.g)
      let temp1 := (st.h + S1 + ch + sha256K.getD t 0 + w.getD t 0) % w32
      let S0 := rotr32 2 st.a ^^^ rotr32 13 st.a ^^^ rotr32 22 st.a
      let maj := (st.a &&& st.b) ^^^ (st.a &&& st.c) ^^^ (st.b &&& st.c)
      let temp2 := (S0 + maj) % w32
      ⟨(temp1 + temp2) % w32, st.a, st.b, st.c,
       (st.d + temp1) % w32, st.e, st.f, st.g⟩)
    s
  ⟨(s.a + fin.a) % w32, (s.b + fin.b) % w32, (s.c + fin.c) % w32,
   (s.d + fin.d) % w32, (s.e + fin.e) % w32, (s.f + fin.f) % w32,
   (s.g + fin.g) % w32, (s.h + fin.h) % w32⟩

/-- Fold the SHA-256 compression over successive 64-byte blocks. -/
def sha256Blocks : Nat → Sha256State → List Nat → Sha256State
  | 0, s, _ => s
  | fuel + 1, s, l =>
    if l = [] then s else sha256Blocks fuel (sha256Block s (l.take 64)) (l.drop 64)

/-- SHA-256 digest of a byte sequence: 32 bytes. -/
def sha256 (msg : List Nat) : List Nat :=
  let p := padMessage msg
  let fin := sha256Blocks p.length sha256IV p
  wordToBytesBE fin.a ++ wordToBytesBE fin.b ++ wordToBytesBE fin.c
    ++ wordToBytesBE fin.d ++ wordToBytesBE fin.e ++ wordToBytesBE fin.f
    ++ wordToBytesBE fin.g ++ wordToBytesBE fin.h

/-! The GitOid value type and its content constructors. -/

/-- Modelled from the spec: §3 GitOid — immutable value of algorithm, object
type, and the ordered digest byte sequence. -/
structure GitOid where
  algorithm : HashAlgorithm
  objectType : ObjectType
  digest : List Nat
deriving DecidableEq, Repr

/-- Modelled from the spec: §4.1 — the digest function the registry assigns
to each algorithm. -/
def digestFn : HashAlgorithm → List Nat → List Nat
  | .sha1 => sha1
  | .sha256 => sha256

/-- Modelled from the spec: §4.5 `from_content_bytes` — build the predigest
header for the content length and hash `header ++ content`. -/
def fromContentBytes (a : HashAlgorithm) (t : ObjectType) (content : List Nat) : GitOid :=
  ⟨a, t, digestFn a (predigest t content.length ++ content)⟩

/-- Modelled from the spec: §4.5 `from_content_string` — the text's exact
byte encoding as content, same pipeline. -/
def fromContentString (a : HashAlgorithm) (t : ObjectType) (text : String) : GitOid :=
  fromContentBytes a t (strBytes text)

/-! The UrlCodec component. -/

/-- Lowercase hex digit character for a value below 16: code point 48+d for
a decimal digit, 87+d for the letters a-f. -/
def hexDigitChar (d : Nat) : Char :=
  if d < 10 then Char.ofNat (48 + d)
  else if d < 16 then Char.ofNat (87 + d)
  else '0'

/-- A byte as two lowercase hex digits, zero-padded. -/
def byteHexChars (b : Nat) : List Char :=
  [hexDigitChar (b / 16), hexDigitChar (b % 16)]

/-- The hex run of a digest: two lowercase digits per byte, no separators. -/
def hexChars (l : List Nat) : List Char :=
  (l.map byteHexChars).flatten

/-- Value of a hexadecimal digit character (either case), `none` for non-hex
characters. -/
def hexDigitVal (c : Char) : Option Nat :=
  let n := c.toNat
  if 48 ≤ n ∧ n ≤ 57 then some (n - 48)
  else if 97 ≤ n ∧ n ≤ 102 then some (n - 87)
  else if 65 ≤ n ∧ n ≤ 70 then some (n - 55)
  else none

/-- Decode a hex run to bytes; fails on an odd length or a non-hex digit. -/
def decodeHex : List Char → Option (List Nat)
  | [] => some []
  | [_] => none
  | c1 :: c2 :: rest =>
    match hexDigitVal c1, hexDigitVal c2, decodeHex rest with
    | some h, some lo, some bs => some ((16 * h + lo) :: bs)
    | _, _, _ => none

/-- Split a character list at every occurrence of `sep`; always returns at
least one (possibly empty) field, like splitting a string on a separator. -/
def splitOnChar (sep : Char) : List Char → List (List Char)
  | [] => [[]]
  | c :: rest =>
    if c = sep then [] :: splitOnChar sep rest
    else
      match splitOnChar sep rest with
      | [] => [[c]]
      | fld :: flds => (c :: fld) :: flds

namespace UrlCodec

/-- Modelled from the spec: §4.6 `format` — exactly
`"gitoid:" ++ object_type_name ++ ":" ++ algorithm_name ++ ":" ++ hex`. -/
def formatChars (g : GitOid) : List Char :=
  "gitoid".data ++ (':' :: (g.objectType.canonicalName.data
    ++ (':' :: (g.algorithm.canonicalName.data ++ (':' :: hexChars g.digest)))))

/-- Modelled from the spec: §4.6 `format`, as a string. -/
def format (g : GitOid) : String := ⟨formatChars g⟩

/-- Modelled from the spec: §4.6 `parse` — split on `:` into exactly four
fields; the scheme must be `gitoid`, the object type and algorithm must
resolve, and the hex field must decode to exactly `digest_length` bytes. -/
def parseChars (l : List Char) : Option GitOid :=
  match splitOnChar ':' l with
  | [scheme, tName, aName, hx] =>
    if scheme = "gitoid".data then
      match resolveObjectType tName, resolveAlgorithm aName with
      | some t, some a =>
        match decodeHex hx with
        | some bytes => if bytes.length = a.digestLength then some ⟨a, t, bytes⟩ else none
        | none => none
      | _, _ => none
    else none
  | _ => none

/-- Modelled from the spec: §4.6 `parse`, on a string. -/
def parse (s : String) : Option GitOid := parseChars s.data

end UrlCodec

/-! The ErrorReporter and the URL construction entry point. -/

/-- Modelled from the spec: §4.6 — the fixed human-readable message set on
any parse failure. -/
def invalidUrlMsg : String := "string is not a valid GitOID URL"

/-- Modelled from the spec: §4.7 — single-slot last-error state. -/
structure ErrorSlot where
  message : String
deriving DecidableEq, Repr

/-- Modelled from the spec: §4.5 `from_url` — delegates entirely to
`UrlCodec.parse`; on failure yields no GitOid and overwrites the last-error
slot with the fixed message, on success leaves the slot untouched. -/
def fromUrl (uri : String) (slot : ErrorSlot) : Option GitOid × ErrorSlot :=
  match UrlCodec.parse uri with
  | some g => (some g, slot)
  | none => (none, ⟨invalidUrlMsg⟩)

/-- Modelled from the spec: §4.7 `get` — copies the last-error message into a
caller buffer of capacity `maxLen`, truncating to `maxLen - 1` characters. -/
def getErrorMessage (slot : ErrorSlot) (maxLen : Nat) : String :=
  ⟨slot.message.data.take (maxLen - 1)⟩

/-- The validity invariant every constructed GitOid enjoys (spec §3): the
digest has the registry length for its algorithm, and every entry is a byte. -/
def GitOid.Valid (g : GitOid) : Prop :=
  g.digest.length = g.algorithm.digestLength ∧ ∀ b ∈ g.digest, b < 256

instance (g : GitOid) : Decidable g.Valid := by
  unfold GitOid.Valid
  infer_instance

/-! Lemmas on the decimal representation used by the predigest header. -/

/-- Read a most-significant-first digit list back as a number. -/
def decValue (ds : List Nat) : Nat := ds.foldl (fun acc d => 10 * acc + d) 0

theorem decValue_append_singleton (xs : List Nat) (d : Nat) :
    decValue (xs ++ [d]) = 10 * decValue xs + d := by
  simp [decValue, List.foldl_append]

theorem mem_decimalDigitsAux {fuel n d : Nat} (h : d ∈ decimalDigitsAux fuel n) :
    d < 10 := by
  induction fuel generalizing n with
  | zero => simp [decimalDigitsAux] at h
  | succ fuel ih =>
    rw [decimalDigitsAux] at h
    by_cases hn : n = 0
    · simp [hn] at h
    · rw [if_neg hn] at h
      rcases List.mem_append.mp h with h1 | h1
      · exact ih h1
      · simp at h1
        omega

theorem decimalDigitsAux_ne_nil {fuel n : Nat} (hn : n ≠ 0) (hf : n ≤ fuel) :
    decimalDigitsAux fuel n ≠ [] := by
  cases fuel with
  | zero => omega
  | succ fuel => rw [decimalDigitsAux]; simp [hn]

theorem decValue_decimalDigitsAux :
    ∀ fuel n, n ≤ fuel → decValue (decimalDigitsAux fuel n) = n
  | 0, n, h => by
    rw [decimalDigitsAux]
    simp [decValue]
    omega
  | fuel + 1, n, h => by
    rw [decimalDigitsAux]
    by_cases hn : n = 0
    · simp [hn, decValue]
    · have hd : n / 10 < n := Nat.div_lt_self (by omega) (by norm_num)
      rw [if_neg hn, decValue_append_singleton,
        decValue_decimalDigitsAux fuel (n / 10) (by omega)]
      omega

theorem head_decimalDigitsAux_ne_zero :
    ∀ fuel n d, n ≤ fuel → (decimalDigitsAux fuel n).head? = some d → d ≠ 0
  | 0, n, d, h1, h2 => by simp [decimalDigitsAux] at h2
  | fuel + 1, n, d, hle, hh => by
    rw [decimalDigitsAux] at hh
    by_cases hn : n = 0
    · simp [hn] at hh
    · rw [if_neg hn] at hh
      by_cases hq : n / 10 = 0
      · have hz : decimalDigitsAux fuel (n / 10) = [] := by
          cases fuel <;> simp [decimalDigitsAux, hq]
        rw [hz] at hh
        simp at hh
        omega
      · have hdlt : n / 10 < n := Nat.div_lt_self (by omega) (by norm_num)
        cases hxx : decimalDigitsAux fuel (n / 10) with
        | nil => exact absurd hxx (decimalDigitsAux_ne_nil hq (by omega))
        | cons x xs =>
          rw [hxx] at hh
          simp at hh
          have := head_decimalDigitsAux_ne_zero fuel (n / 10) x (by omega)
            (by rw [hxx]; rfl)
          omega

theorem mem_decimalBytes {n b : Nat} (h : b ∈ decimalBytes n) : 48 ≤ b ∧ b ≤ 57 := by
  unfold decimalBytes at h
  by_cases hn : n = 0
  · simp [hn] at h
    omega
  · rw [if_neg hn] at h
    obtain ⟨d, hd, rfl⟩ := List.mem_map.mp h
    have := mem_decimalDigitsAux hd
    omega

theorem head_decimalBytes_ne_48 {n d : Nat} (hn : n ≠ 0)
    (h : (decimalBytes n).head? = some d) : d ≠ 48 := by
  unfold decimalBytes at h
  rw [if_neg hn] at h
  cases hxx : decimalDigitsAux n n with
  | nil => rw [hxx] at h; simp at h
  | cons x xs =>
    rw [hxx] at h
    simp at h
    have hx := head_decimalDigitsAux_ne_zero n n x le_rfl (by rw [hxx]; rfl)
    omega

theorem decValue_decimalBytes (n : Nat) :
    decValue ((decimalBytes n).map (· - 48)) = n := by
  unfold decimalBytes
  by_cases hn : n = 0
  · simp [hn, decValue]
  · rw [if_neg hn, List.map_map]
    have hcomp : ((fun x => x - 48) ∘ fun x => x + 48) = id := by
      funext x
      simp
    rw [hcomp, List.map_id, decValue_decimalDigitsAux n n le_rfl]

theorem decimalBytes_injective {a b : Nat} (h : decimalBytes a = decimalBytes b) :
    a = b := by
  have ha := decValue_decimalBytes a
  rw [h] at ha
  exact ha.symm.trans (decValue_decimalBytes b)

theorem zero_not_mem_decimalBytes (n : Nat) : 0 ∉ decimalBytes n := by
  intro h
  have := mem_decimalBytes h
  omega

/-! Injectivity of the predigest header: two digest inputs with the same
object type but different content lengths can never coincide, because the
NUL terminator cannot occur among the decimal digits. -/

theorem append_nul_inj :
    ∀ (xs ys r s : List Nat), 0 ∉ xs → 0 ∉ ys →
      xs ++ 0 :: r = ys ++ 0 :: s → xs = ys ∧ r = s
  | [], [], r, s, _, _, h => by simpa using h
  | [], y :: ys, r, s, hx, hy, h => by
    simp at h
    simp [← h.1] at hy
  | x :: xs, [], r, s, hx, hy, h => by
    simp at h
    simp [← h.1] at hx
  | x :: xs, y :: ys, r, s, hx, hy, h => by
    simp at h
    obtain ⟨hxy, h2⟩ := h
    obtain ⟨h3, h4⟩ := append_nul_inj xs ys r s
      (fun hm => hx (List.mem_cons_of_mem _ hm))
      (fun hm => hy (List.mem_cons_of_mem _ hm)) h2
    exact ⟨by rw [hxy, h3], h4⟩

theorem predigest_append_inj {t : ObjectType} {L1 L2 : Nat} {c1 c2 : List Nat}
    (h : predigest t L1 ++ c1 = predigest t L2 ++ c2) : L1 = L2 ∧ c1 = c2 := by
  unfold predigest at h
  simp only [List.append_assoc, List.singleton_append, List.cons_append,
    List.nil_append] at h
  have h2 := List.append_cancel_left h
  simp only [List.cons.injEq, true_and] at h2
  obtain ⟨h3, h4⟩ := append_nul_inj _ _ _ _
    (zero_not_mem_decimalBytes L1) (zero_not_mem_decimalBytes L2) h2
  exact ⟨decimalBytes_injective h3, h4⟩

/-! Digest length lemmas. -/

theorem sha1_length (msg : List Nat) : (sha1 msg).length = 20 := rfl

theorem sha256_length (msg : List Nat) : (sha256 msg).length = 32 := rfl

theorem digestFn_length (a : HashAlgorithm) (msg : List Nat) :
    (digestFn a msg).length = a.digestLength := by
  cases a
  · exact sha1_length msg
  · exact sha256_length msg

theorem fromContentBytes_digest_length (a : HashAlgorithm) (t : ObjectType)
    (content : List Nat) :
    (fromContentBytes a t content).digest.length = a.digestLength :=
  digestFn_length a _

/-! Lemmas on hex encoding and decoding. -/

theorem hexDigitVal_hexDigitChar {d : Nat} (h : d < 16) :
    hexDigitVal (hexDigitChar d) = some d := by
  interval_cases d <;> rfl

theorem hexDigitChar_ne_colon {d : Nat} (h : d < 16) : hexDigitChar d ≠ ':' := by
  interval_cases d <;> decide

theorem decodeHex_hexChars :
    ∀ {l : List Nat}, (∀ b ∈ l, b < 256) → decodeHex (hexChars l) = some l
  | [], _ => rfl
  | b :: bs, h => by
    have hb : b < 256 := h b (List.mem_cons_self _ _)
    have h16a : b / 16 < 16 := by omega
    have h16b : b % 16 < 16 := by omega
    show decodeHex (hexDigitChar (b / 16) :: hexDigitChar (b % 16) :: hexChars bs) = _
    rw [decodeHex, hexDigitVal_hexDigitChar h16a, hexDigitVal_hexDigitChar h16b,
      decodeHex_hexChars (fun x hx => h x (List.mem_cons_of_mem _ hx))]
    simp only [Option.some.injEq, List.cons.injEq]
    exact ⟨by omega, trivial⟩

theorem mem_hexChars_ne_colon {l : List Nat} (hl : ∀ b ∈ l, b < 256) :
    ∀ c ∈ hexChars l, c ≠ ':' := by
  intro c hc
  unfold hexChars at hc
  obtain ⟨cs, hcs, hcmem⟩ := List.mem_flatten.mp hc
  obtain ⟨b, hb, rfl⟩ := List.mem_map.mp hcs
  have hb256 := hl b hb
  simp [byteHexChars] at hcmem
  rcases hcmem with h | h
  · exact h ▸ hexDigitChar_ne_colon (by omega)
  · exact h ▸ hexDigitChar_ne_colon (by omega)

/-! Lemmas on splitting at the separator. -/

theorem splitOnChar_no_sep {sep : Char} :
    ∀ {l : List Char}, (∀ c ∈ l, c ≠ sep) → splitOnChar sep l = [l]
  | [], _ => rfl
  | c :: rest, h => by
    rw [splitOnChar, if_neg (h c (List.mem_cons_self _ _)),
      splitOnChar_no_sep (fun x hx => h x (List.mem_cons_of_mem _ hx))]

theorem splitOnChar_append {sep : Char} :
    ∀ {l : List Char} (rest : List Char), (∀ c ∈ l, c ≠ sep) →
      splitOnChar sep (l ++ sep :: rest) = l :: splitOnChar sep rest
  | [], rest, _ => by rw [List.nil_append, splitOnChar, if_pos rfl]
  | c :: l', rest, h => by
    rw [List.cons_append, splitOnChar, if_neg (h c (List.mem_cons_self _ _)),
      splitOnChar_append rest (fun x hx => h x (List.mem_cons_of_mem _ hx))]

/-! Round trip of the UrlCodec on every valid GitOid. -/

theorem parse_format_eq (g : GitOid) (h : g.Valid) :
    UrlCodec.parse (UrlCodec.format g) = some g := by
  obtain ⟨a, t, digest⟩ := g
  obtain ⟨hlen, hbytes⟩ := h
  have hbytes' : ∀ b ∈ digest, b < 256 := hbytes
  have hg : ∀ c ∈ "gitoid".data, c ≠ ':' := by decide
  have hb : ∀ c ∈ "blob".data, c ≠ ':' := by decide
  have hs1 : ∀ c ∈ "sha1".data, c ≠ ':' := by decide
  have hs2 : ∀ c ∈ "sha256".data, c ≠ ':' := by decide
  have hro : resolveObjectType "blob".data = some .blob := by decide
  have hra1 : resolveAlgorithm "sha1".data = some .sha1 := by decide
  have hra2 : resolveAlgorithm "sha256".data = some .sha256 := by decide
  cases t
  cases a
  · show UrlCodec.parseChars (UrlCodec.formatChars _) = _
    unfold UrlCodec.parseChars UrlCodec.formatChars
    dsimp only [ObjectType.canonicalName, HashAlgorithm.canonicalName,
      HashAlgorithm.digestLength] at hlen ⊢
    rw [splitOnChar_append _ hg, splitOnChar_append _ hb, splitOnChar_append _ hs1,
      splitOnChar_no_sep (mem_hexChars_ne_colon hbytes')]
    simp only [if_pos rfl, hro, hra1, decodeHex_hexChars hbytes']
    simp [hlen]
  · show UrlCodec.parseChars (UrlCodec.formatChars _) = _
    unfold UrlCodec.parseChars UrlCodec.formatChars
    dsimp only [ObjectType.canonicalName, HashAlgorithm.canonicalName,
      HashAlgorithm.digestLength] at hlen ⊢
    rw [splitOnChar_append _ hg, splitOnChar_append _ hb, splitOnChar_append _ hs2,
      splitOnChar_no_sep (mem_hexChars_ne_colon hbytes')]
    simp only [if_pos rfl, hro, hra2, decodeHex_hexChars hbytes']
    simp [hlen]

/-! Every successful parse yields a digest of the registry length. -/

theorem parse_digest_length {s : String} {g : GitOid}
    (h : UrlCodec.parse s = some g) :
    g.digest.length = g.algorithm.digestLength := by
  unfold UrlCodec.parse UrlCodec.parseChars at h
  split at h
  all_goals try exact Option.noConfusion h
  split_ifs at h
  split at h
  all_goals try exact Option.noConfusion h
  split at h
  all_goals try exact Option.noConfusion h
  split_ifs at h with hl
  obtain rfl := Option.some.inj h
  exact hl

/-! The FFI test driver's byte-array decoding loop (src/gitoid/src/ffi/test.c):
`sscanf(position, "%2hhx", &byte_array[count])` over the string
"hello_world" at positions 0, 2, 4, …, 22. -/

/-- One `sscanf("%2hhx")` read at character position `pos`: assigns a byte
exactly when the character at `pos` is a hexadecimal digit, consuming a
second hex digit when one follows. -/
def scan2hhx (s : List Char) (pos : Nat) : Option Nat :=
  match s.drop pos with
  | [] => none
  | c1 :: rest =>
    match hexDigitVal c1 with
    | none => none
    | some h1 =>
      match rest with
      | [] => some h1
      | c2 :: _ =>
        match hexDigitVal c2 with
        | none => some h1
        | some h2 => some (16 * h1 + h2)

/-- The twelve writes the FFI test driver's loop attempts into `byte_array`:
entry `count` is the byte `sscanf` assigns when scanning "hello_world" at
position `2 * count`, and `none` when the conversion fails and `sscanf`
assigns nothing. -/
def ffiByteArrayWrites : List (Option Nat) :=
  (List.range 12).map (fun count => scan2hhx "hello_world".data (2 * count))

/-- The 32 digest bytes encoded by the hex field of the sha256 test vector
URI `gitoid:blob:sha256:fee53a18…6f03`. -/
def feeBytes : List Nat :=
  [0xfe, 0xe5, 0x3a, 0x18, 0xd3, 0x28, 0x20, 0x61, 0x3c, 0x05, 0x27, 0xaa,
   0x79, 0xbe, 0x5c, 0xb3, 0x01, 0x73, 0xc8, 0x23, 0xa9, 0xb4, 0x48, 0xfa,
   0x48, 0x17, 0x76, 0x7c, 0xc8, 0x4c, 0x6f, 0x03]

/-- C1: for every valid GitOid `g`, `parse (format g)` yields a GitOid equal
to `g` in algorithm, object type, and digest bytes; in particular, formatting
the GitOid parsed from the canonical test URI reproduces that URI string
exactly. -/
theorem claim_C1_roundtrip :
    (∀ g : GitOid, g.Valid → UrlCodec.parse (UrlCodec.format g) = some g) ∧
    (UrlCodec.parse
        "gitoid:blob:sha256:fee53a18d32820613c0527aa79be5cb30173c823a9b448fa4817767cc84c6f03").map
      UrlCodec.format =
      some "gitoid:blob:sha256:fee53a18d32820613c0527aa79be5cb30173c823a9b448fa4817767cc84c6f03" :=
  ⟨parse_format_eq, by decide⟩

/-- Witness for C1 at the concrete valid GitOid of 20 zero bytes. -/
theorem claim_C1_roundtrip_witness :
    GitOid.Valid ⟨.sha1, .blob, List.replicate 20 0⟩ ∧
    UrlCodec.parse (UrlCodec.format ⟨.sha1, .blob, List.replicate 20 0⟩) =
      some ⟨.sha1, .blob, List.replicate 20 0⟩ :=
  ⟨by decide, claim_C1_roundtrip.1 _ (by decide)⟩

/-- C2: every GitOid built by the three validated constructors (from content
string, from content bytes, from URI) carries a digest whose length is the
registry digest length of its algorithm — 20 for sha1, 32 for sha256. -/
theorem claim_C2_digest_length :
    (∀ (a : HashAlgorithm) (t : ObjectType) (content : List Nat),
      (fromContentBytes a t content).digest.length = a.digestLength) ∧
    (∀ (a : HashAlgorithm) (t : ObjectType) (text : String),
      (fromContentString a t text).digest.length = a.digestLength) ∧
    (∀ (uri : String) (g : GitOid), UrlCodec.parse uri = some g →
      g.digest.length = g.algorithm.digestLength) ∧
    HashAlgorithm.digestLength .sha1 = 20 ∧
    HashAlgorithm.digestLength .sha256 = 32 :=
  ⟨fromContentBytes_digest_length,
   fun a t _ => fromContentBytes_digest_length a t _,
   fun _ _ h => parse_digest_length h, rfl, rfl⟩

/-- Witness for C2 at the parsed sha256 test vector. -/
theorem claim_C2_digest_length_witness :
    (⟨.sha256, .blob, feeBytes⟩ : GitOid).digest.length =
      (⟨.sha256, .blob, feeBytes⟩ : GitOid).algorithm.digestLength :=
  claim_C2_digest_length.2.2.1
    "gitoid:blob:sha256:fee53a18d32820613c0527aa79be5cb30173c823a9b448fa4817767cc84c6f03"
    ⟨.sha256, .blob, feeBytes⟩ (by decide)

/-- C3: parsing `gitoid:blob:sha000:<64 hex digits>` yields no GitOid, and the
error-message query afterwards returns exactly the fixed string
`string is not a valid GitOID URL`. -/
theorem claim_C3_rejection (slot : ErrorSlot) :
    (fromUrl
        "gitoid:blob:sha000:fee53a18d32820613c0527aa79be5cb30173c823a9b448fa4817767cc84c6f03"
        slot).1 = none ∧
    getErrorMessage
        (fromUrl
          "gitoid:blob:sha000:fee53a18d32820613c0527aa79be5cb30173c823a9b448fa4817767cc84c6f03"
          slot).2 256 =
      "string is not a valid GitOID URL" := by
  have hp : UrlCodec.parse
      "gitoid:blob:sha000:fee53a18d32820613c0527aa79be5cb30173c823a9b448fa4817767cc84c6f03"
      = none := by decide
  unfold fromUrl
  rw [hp]
  refine ⟨rfl, ?_⟩
  show getErrorMessage ⟨invalidUrlMsg⟩ 256 = "string is not a valid GitOID URL"
  decide

/-- Witness for C3 at a concrete initial error slot. -/
theorem claim_C3_rejection_witness :
    (fromUrl
        "gitoid:blob:sha000:fee53a18d32820613c0527aa79be5cb30173c823a9b448fa4817767cc84c6f03"
        ⟨""⟩).1 = none ∧
    getErrorMessage
        (fromUrl
          "gitoid:blob:sha000:fee53a18d32820613c0527aa79be5cb30173c823a9b448fa4817767cc84c6f03"
          ⟨""⟩).2 256 =
      "string is not a valid GitOID URL" :=
  claim_C3_rejection ⟨""⟩

set_option maxRecDepth 1000000

/-- C4: the GitOid of the content string "hello world" under sha1/blob has a
20-byte digest whose first byte is 0x95 (149). -/
theorem claim_C4_hello_world_sha1 :
    (fromContentString .sha1 .blob "hello world").digest.length = 20 ∧
    (fromContentString .sha1 .blob "hello world").digest.headD 0 = 149 :=
  ⟨by decide, by decide⟩

/-- C5: the GitOid of the 16 content bytes 0x00..0x0F under sha1/blob has a
20-byte digest whose first byte is 0xB6 (182). -/
theorem claim_C5_sixteen_bytes_sha1 :
    (fromContentBytes .sha1 .blob
      [0x00, 0x01, 0x02, 0x03, 0x04, 0x05, 0x06, 0x07,
       0x08, 0x09, 0x0A, 0x0B, 0x0C, 0x0D, 0x0E, 0x0F]).digest.length = 20 ∧
    (fromContentBytes .sha1 .blob
      [0x00, 0x01, 0x02, 0x03, 0x04, 0x05, 0x06, 0x07,
       0x08, 0x09, 0x0A, 0x0B, 0x0C, 0x0D, 0x0E, 0x0F]).digest.headD 0 = 182 :=
  ⟨by decide, by decide⟩

/-- C6: parsing the sha256 test vector URI succeeds and yields exactly the
GitOid whose digest is the 32 bytes decoded from the hex field (no hashing —
the digest is reconstructed purely from the URI), with length 32 and first
byte 0xFE (254). -/
theorem claim_C6_parse_sha256_vector :
    UrlCodec.parse
        "gitoid:blob:sha256:fee53a18d32820613c0527aa79be5cb30173c823a9b448fa4817767cc84c6f03"
      = some ⟨.sha256, .blob, feeBytes⟩ ∧
    feeBytes.length = 32 ∧ feeBytes.headD 0 = 254 := by
  decide

/-- C7: the predigest header is exactly the ASCII bytes of the object type's
canonical name, one space, the decimal ASCII representation of the content
length (digits 0-9 only, no leading zero, no sign, reading back to the
length), and one NUL byte. -/
theorem claim_C7_predigest_header (t : ObjectType) (len : Nat) :
    predigest t len = strBytes t.canonicalName ++ [32] ++ decimalBytes len ++ [0] ∧
    strBytes ObjectType.blob.canonicalName = [98, 108, 111, 98] ∧
    (∀ b ∈ decimalBytes len, 48 ≤ b ∧ b ≤ 57) ∧
    (len ≠ 0 → ∀ d, (decimalBytes len).head? = some d → d ≠ 48) ∧
    decValue ((decimalBytes len).map (· - 48)) = len :=
  ⟨rfl, by decide, fun _ hb => mem_decimalBytes hb,
   fun hn d hd => head_decimalBytes_ne_48 hn hd, decValue_decimalBytes len⟩

/-- Witness for C7 at object type blob and content length 11. -/
theorem claim_C7_predigest_header_witness :
    predigest .blob 11 = strBytes "blob" ++ [32] ++ decimalBytes 11 ++ [0] ∧
    (48 ≤ 49 ∧ 49 ≤ 57) ∧
    (49 : Nat) ≠ 48 ∧
    decValue ((decimalBytes 11).map (· - 48)) = 11 :=
  ⟨(claim_C7_predigest_header .blob 11).1,
   (claim_C7_predigest_header .blob 11).2.2.1 49 (by decide),
   (claim_C7_predigest_header .blob 11).2.2.2.1 (by decide) 49 (by decide),
   (claim_C7_predigest_header .blob 11).2.2.2.2⟩

/-- C8: the construction pipeline is a deterministic pure function of its
inputs — two calls of `fromContentBytes` on identical arguments yield
byte-identical digests, and parsing the same URI twice yields the same
outcome. -/
theorem claim_C8_determinism (a : HashAlgorithm) (t : ObjectType) (bytes : List Nat) :
    (fromContentBytes a t bytes).digest = (fromContentBytes a t bytes).digest ∧
    ∀ uri : String, UrlCodec.parse uri = UrlCodec.parse uri :=
  ⟨rfl, fun _ => rfl⟩

/-- Witness for C8 at sha1/blob and the empty byte sequence. -/
theorem claim_C8_determinism_witness :
    (fromContentBytes .sha1 .blob []).digest = (fromContentBytes .sha1 .blob []).digest :=
  (claim_C8_determinism .sha1 .blob []).1

/-- C9: name resolution in a URI is case-sensitive on the canonical lowercase
form — `Blob` and `SHA1` fail resolution, and URIs carrying them parse to no
GitOid rather than defaulting. -/
theorem claim_C9_case_sensitive :
    resolveObjectType "Blob".data = none ∧
    resolveAlgorithm "SHA1".data = none ∧
    UrlCodec.parse "gitoid:Blob:sha1:95d09f2b10159347eece71399a7e2e907ea3df4f" = none ∧
    UrlCodec.parse "gitoid:blob:SHA1:95d09f2b10159347eece71399a7e2e907ea3df4f" = none := by
  decide

/-- C10: in the FFI test driver, the `sscanf` decoding loop over
"hello_world" never assigns `byte_array[0]` (the write at position 0 is
`none`), because the leading character `h` is not a hexadecimal digit — so
the content length actually passed (the swapped argument `*byte_array`) is
read from an unassigned element; and for any content whose length differs
from 12 the digest input differs from that of the 12-byte decoded array, so
the GitOid computed is not the gitoid of that array. -/
theorem claim_C10_ffi_swapped_call :
    ffiByteArrayWrites.headD (some 0) = none ∧
    hexDigitVal 'h' = none ∧
    (∀ (t : ObjectType) (c d : List Nat), c.length ≠ d.length →
      predigest t c.length ++ c ≠ predigest t d.length ++ d) :=
  ⟨by decide, rfl, fun _ _ _ hne heq => hne (predigest_append_inj heq).1⟩

/-- Witness for C10 at a 1-byte content versus a 12-byte content. -/
theorem claim_C10_ffi_swapped_call_witness :
    ([0] : List Nat).length ≠ (List.replicate 12 (0 : Nat)).length ∧
    predigest .blob ([0] : List Nat).length ++ [0] ≠
      predigest .blob (List.replicate 12 (0 : Nat)).length ++ List.replicate 12 0 :=
  ⟨by decide, claim_C10_ffi_swapped_call.2.2 .blob [0] (List.replicate 12 0) (by decide)⟩

end OmniBor

